import Mathlib

/-!
Verification of the RERD market-analysis dashboard's data pipeline.

Shallow embedding of the core pipeline of the repository:
* the record normalizer (`parseCSV` complete-callback, services/csvService.ts),
* the filter pipeline and sort stage (`projectsInView` / `filteredProjects`, App.tsx),
* the aggregation engine (`ExportDashboard` stats, components/ExportDashboard.tsx),
* `handleResetFilters` (App.tsx).

Modelling conventions:
* JS `number` is modelled by `ℚ` (all arithmetic in the pipeline is exact on the
  decimal inputs concerned; IEEE-754 rounding is not modelled).
* JS strings are Lean `String`s; `String.trim` / `String.toLower` model
  `trim()` / `toLowerCase()` (the column names concerned are ASCII),
  and Lean's lexicographic `String` order models code-unit comparison
  (`<`, default `Array.sort`, `localeCompare` on the ASCII `YY.MM` tokens).
* TS fields that hold `toFixed(d)` renderings of numbers and are only ever
  read back through `parseFloat` (`Project.percentSold`, `Project.saleSpeed`,
  `Project.saleSpeed6m`, `SubUnit.saleSpeed`, `SubUnit.saleSpeed6m`) are
  modelled by the underlying rational; every consumer applies `roundTo d`
  (= `parseFloat ∘ toFixed d`) or `toFixedQ d` (the rendered string) at the
  use site.
* A raw CSV row (papaparse row object) is an association list
  `List (String × String)` in object-key insertion order.
-/

namespace RERD

/-! ### JS primitives: parseFloat, toFixed, Math.min/max -/

/-- Digits of a character run, most significant first, as a natural number. -/
def digitsToNat (ds : List Char) : Nat :=
  ds.foldl (fun acc c => acc * 10 + (c.toNat - '0'.toNat)) 0

/-- Split a character list into its leading run of decimal digits and the rest. -/
def takeDigits : List Char → List Char × List Char
  | [] => ([], [])
  | c :: cs =>
    if c.isDigit then
      let (ds, rest) := takeDigits cs
      (c :: ds, rest)
    else ([], c :: cs)

/-- Optional leading sign; returns (isNegative, rest). -/
def takeSign : List Char → Bool × List Char
  | '-' :: cs => (true, cs)
  | '+' :: cs => (false, cs)
  | cs => (false, cs)

/-- Exponent part after an `e`/`E`: sign and at least one digit, else `none`. -/
def takeExp (cs : List Char) : Option Int :=
  let (neg, cs1) := takeSign cs
  let (ds, _) := takeDigits cs1
  if ds.isEmpty then none
  else some (if neg then -(digitsToNat ds : Int) else (digitsToNat ds : Int))

/-- JS `parseFloat`: skip leading whitespace, optional sign, digits with an
optional fraction and exponent, ignoring any trailing garbage; `none` models
`NaN` (no digits at all).  `Infinity` literals are not modelled (treated as
unparseable); they do not occur in the data concerned. -/
def parseFloatQ (s : String) : Option ℚ :=
  let cs := s.toList.dropWhile Char.isWhitespace
  let (neg, cs1) := takeSign cs
  let (intDs, cs2) := takeDigits cs1
  let (fracDs, cs3) :=
    match cs2 with
    | '.' :: rest => takeDigits rest
    | _ => ([], cs2)
  if intDs.isEmpty && fracDs.isEmpty then none
  else
    let mantissa : ℚ := (digitsToNat (intDs ++ fracDs) : ℚ) / ((10 : ℚ) ^ fracDs.length)
    let withExp : ℚ :=
      match cs3 with
      | 'e' :: rest => (match takeExp rest with | some e => mantissa * (10 : ℚ) ^ e | none => mantissa)
      | 'E' :: rest => (match takeExp rest with | some e => mantissa * (10 : ℚ) ^ e | none => mantissa)
      | _ => mantissa
    some (if neg then -withExp else withExp)

/-- Left-pad a string with zeros to length `n`. -/
def padZeros (s : String) (n : Nat) : String :=
  String.mk (List.replicate (n - s.length) '0') ++ s

/-- JS `Number.prototype.toFixed(d)` on an exact rational: sign of the input,
magnitude rounded to `d` decimals with ties rounded up. -/
def toFixedQ (d : Nat) (q : ℚ) : String :=
  let sign := if q < 0 then "-" else ""
  let m : Nat := (⌊|q| * (10 : ℚ) ^ d + 1 / 2⌋).toNat
  let ip := m / 10 ^ d
  let fp := m % 10 ^ d
  if d = 0 then sign ++ toString ip
  else sign ++ toString ip ++ "." ++ padZeros (toString fp) d

/-- The numeric value of `parseFloat(x.toFixed(d))` for a number `x`: `x`
rounded to `d` decimals (ties away from/up as in `toFixed`, sign preserved). -/
def roundTo (d : Nat) (q : ℚ) : ℚ :=
  let m : ℤ := ⌊|q| * (10 : ℚ) ^ d + 1 / 2⌋
  (if q < 0 then (-m : ℚ) else (m : ℚ)) / (10 : ℚ) ^ d

/-- `Math.min(...l)` for the nonempty lists the code applies it to
(the `0` default for `[]` is never reached behind the length guards). -/
def qMin : List ℚ → ℚ
  | [] => 0
  | x :: xs => xs.foldl min x

/-- `Math.max(...l)` for the nonempty lists the code applies it to. -/
def qMax : List ℚ → ℚ
  | [] => 0
  | x :: xs => xs.foldl max x

/-- ASCII lower-casing of one character (`toLowerCase()` on the ASCII header
names and markers concerned). -/
def lowerChar (c : Char) : Char :=
  if 'A' ≤ c ∧ c ≤ 'Z' then Char.ofNat (c.toNat + 32) else c

/-- `s.toLowerCase()` on the ASCII strings concerned. -/
def jsToLower (s : String) : String :=
  String.mk (s.toList.map lowerChar)

/-- `s.trim()`: strip leading and trailing whitespace. -/
def jsTrim (s : String) : String :=
  String.mk (((s.toList.dropWhile Char.isWhitespace).reverse.dropWhile Char.isWhitespace).reverse)

/-- Substring test helper: does the haystack start with the needle? -/
def startsWithChars : List Char → List Char → Bool
  | [], _ => true
  | _ :: _, [] => false
  | a :: as, b :: bs => a == b && startsWithChars as bs

/-- JS `String.prototype.includes`: needle occurs somewhere in the haystack. -/
def containsSub (needle : List Char) : List Char → Bool
  | [] => needle.isEmpty
  | b :: bs => startsWithChars needle (b :: bs) || containsSub needle bs

/-! ### Data model (types.ts, extended by App.tsx's priceSegment field) -/

/-- `SubUnit` (types.ts).  The TS `saleSpeed`/`saleSpeed6m` strings are the
`toFixed(2)` renderings of the rationals stored here. -/
structure SubUnit where
  type : String
  usableArea : String
  landArea : String
  totalUnits : ℚ
  soldUnits : ℚ
  percentSold : ℚ
  price : ℚ
  priceStr : String
  launchDate : String
  saleSpeed : ℚ
  saleSpeed6m : ℚ
  history : List (String × ℚ)
  deriving Repr, DecidableEq

/-- `Project` (types.ts).  The TS `percentSold` / `saleSpeed6m` / `saleSpeed`
strings are the `toFixed(1)` / `toFixed(2)` renderings of the rationals stored
here; their consumers parse them back with `parseFloat` (= `roundTo`). -/
structure Project where
  projectId : String
  lat : ℚ
  lng : ℚ
  code : String
  name : String
  developer : String
  subUnits : List SubUnit
  totalUnits : ℚ
  soldUnits : ℚ
  percentSold : ℚ
  priceRange : String
  saleSpeed6m : ℚ
  saleSpeed : ℚ
  distance : Option ℚ
  deriving Repr, DecidableEq

inductive SearchMode where
  | location
  | code
  deriving Repr, DecidableEq

inductive SortKey where
  | distance
  | percentSold
  | speed6m
  | speed
  | unitLeft
  | launchDate
  | priceAsc
  | priceDesc
  deriving Repr, DecidableEq

/-- `SearchState` (types.ts plus the `priceSegment` field used in App.tsx). -/
structure SearchState where
  lat : ℚ
  lng : ℚ
  radius : ℚ
  searchMode : SearchMode
  codeFilter : List String
  typeFilter : List String
  sortBy : SortKey
  minPrice : Option ℚ
  maxPrice : Option ℚ
  minLaunchDate : Option String
  maxSoldPercent : ℚ
  priceSegment : Option String
  deriving Repr, DecidableEq

/-! ### Record Normalizer (services/csvService.ts, `parseCSV` complete-callback)

The papaparse text-to-row parsing and the header-scan `beforeFirstChunk` hook
are upstream of the claims; the embedding starts from the parsed row objects. -/

/-- A raw papaparse row object: string keys to string values, in insertion order. -/
def Row := List (String × String)

/-- JS object property read `row[key]` (object keys are unique). -/
def rowLookup (row : Row) (key : String) : Option String :=
  (row.find? (fun kv => kv.1 == key)).map Prod.snd

/-- The case-insensitive fallback inside `getValue`:
`rowKeys.find(k => k.trim().toLowerCase() === key.toLowerCase())`. -/
def ciLookup (row : Row) (key : String) : Option String :=
  (row.find? (fun kv => jsToLower (jsTrim kv.1) == jsToLower key)).map Prod.snd

/-- `getValue(row, possibleKeys)`: first alias with a non-empty value wins,
checking the exact key first and then the first case-insensitive/trimmed
header match for that alias. -/
def getValue (row : Row) : List String → Option String
  | [] => none
  | key :: rest =>
    let step2 : Option String :=
      match ciLookup row key with
      | some v => if v ≠ "" then some v else getValue row rest
      | none => getValue row rest
    match rowLookup row key with
    | some v => if v ≠ "" then some v else step2
    | none => step2

/-- `parseFloat(x) || 0` applied to an optional field value
(`null`, `NaN` and `-0` all collapse to `0`). -/
def numField (o : Option String) : ℚ :=
  (o.bind parseFloatQ).getD 0

/-- The regex test `/^H[12]\.\d+/` on a (trimmed) column name. -/
def hTest (k : String) : Bool :=
  match k.toList with
  | 'H' :: c :: '.' :: d :: _ => (c == '1' || c == '2') && d.isDigit
  | _ => false

/-- JS object write `history[cleanKey] = val` on the association-list model:
an existing key keeps its position and gets the new value, a new key is
appended. -/
def upsert (l : List (String × ℚ)) (k : String) (v : ℚ) : List (String × ℚ) :=
  if l.any (fun kv => kv.1 == k) then l.map (fun kv => if kv.1 == k then (k, v) else kv)
  else l ++ [(k, v)]

/-- History extraction: every column whose trimmed name passes `/^H[12]\.\d+/`
and whose value parses to a number is recorded under the trimmed name. -/
def historyOf (r : Row) : List (String × ℚ) :=
  r.foldl
    (fun h kv =>
      let cleanKey := jsTrim kv.1
      if hTest cleanKey then
        match parseFloatQ kv.2 with
        | some v => upsert h cleanKey v
        | none => h
      else h)
    []

/-- Parsed form of a history key, `parseKey` inside the backfill comparator. -/
structure HKey where
  half : ℤ
  year : ℤ
  is12m : Bool
  deriving Repr, DecidableEq

/-- `k.toLowerCase().includes('(12m)')`. -/
def has12mMark (k : String) : Bool :=
  containsSub "(12m)".toList (jsToLower k).toList

/-- `parseKey`: match `^H([12])\.(\d+)`; on failure `{half: 0, year: 0, is12m: false}`. -/
def parseHKey (k : String) : HKey :=
  match k.toList with
  | 'H' :: c :: '.' :: rest =>
    if c == '1' || c == '2' then
      let (ds, _) := takeDigits rest
      if ds.isEmpty then ⟨0, 0, false⟩
      else ⟨(c.toNat - '0'.toNat : ℤ), (digitsToNat ds : ℤ), has12mMark k⟩
    else ⟨0, 0, false⟩
  | _ => ⟨0, 0, false⟩

/-- The backfill sort comparator on history keys: `(12m)`-marked keys first,
then year descending, then half descending. -/
def hCmp (a b : String) : ℤ :=
  let aV := parseHKey a
  let bV := parseHKey b
  if aV.is12m ≠ bV.is12m then (if bV.is12m then 1 else -1)
  else if aV.year ≠ bV.year then bV.year - aV.year
  else bV.half - aV.half

/-- The sort order induced by `hCmp` (JS `sort` puts `a` no later than `b`
when the comparator is `≤ 0`). -/
def hLE (a b : String) : Prop := hCmp a b ≤ 0

instance : DecidableRel hLE := fun a b => inferInstanceAs (Decidable (hCmp a b ≤ 0))

/-- The speed6m backfill: if the canonical value is `0` and the history is
non-empty, take the history value of the first key in comparator order. -/
def backfillSpeed6m (speed6m : ℚ) (history : List (String × ℚ)) : ℚ :=
  if speed6m = 0 ∧ history ≠ [] then
    match List.insertionSort hLE (history.map Prod.fst) with
    | [] => speed6m
    | k :: _ => (List.lookup k history).getD 0
  else speed6m

/-- Text normalization of the product-type label: trim, NFC-normalize, strip
zero-width characters.  `normalize('NFC')` is modelled as the identity (the
labels concerned contain no decomposed sequences). -/
def normalizeTypeStr (s : String) : String :=
  String.mk ((jsTrim s).toList.filter
    (fun c => !(0x200B ≤ c.toNat && c.toNat ≤ 0x200D || c.toNat == 0xFEFF)))

/-- Alias lists of `parseCSV`, one per logical field. -/
def typeKeys : List String := ["Type", "Product Type", "Unit Type"]

def usableKeys : List String := ["Usable Area (sq.m.)", "Usable Area", "Size"]

def landKeys : List String := ["Land Area (sq.w.)", "Land Area"]

def totalKeys : List String := ["Total units", "Total Units", "Units"]

def soldKeys : List String := ["Sold Units", "Sold"]

def priceKeys : List String := ["Avg. Price (Units)", "Price", "Avg Price", "Avg. Price"]

def speed6mKeys : List String := ["Sale Speed (6 เดือน)", "Sale Speed 6m", "Speed 6m", "Sale Speed (6 Months)"]

def speedKeys : List String := ["Sale Speed", "Speed", "Total Sale Speed"]

def launchKeys : List String := ["Launch date (YY.MM)", "Launch Date", "Launch"]

def idKeys : List String := ["ID", "id", "project_id", "Project ID"]

def codeKeys : List String := ["Area Code", "Code Area", "Code", "AREA Code", "Zone", "Location Code", "Zone Code"]

/-- Parsed total-units of a row (`parseFloat(totalStr) || 0`). -/
def rowTotalUnits (r : Row) : ℚ := numField (getValue r totalKeys)

/-- Parsed sold-units of a row. -/
def rowSoldUnits (r : Row) : ℚ := numField (getValue r soldKeys)

/-- One raw row becomes one `SubUnit` (the body of `rows.forEach` in `parseCSV`). -/
def mkSubUnit (r : Row) : SubUnit :=
  let type := normalizeTypeStr ((getValue r typeKeys).getD "Unknown")
  let usable := numField (getValue r usableKeys)
  let land := numField (getValue r landKeys)
  let total := rowTotalUnits r
  let sold := rowSoldUnits r
  let price := numField (getValue r priceKeys)
  let speed6m0 := numField (getValue r speed6mKeys)
  let speed := numField (getValue r speedKeys)
  let launchDate := (getValue r launchKeys).getD "-"
  let history := historyOf r
  let speed6m := backfillSpeed6m speed6m0 history
  let perSold := if total ≠ 0 then sold / total * 100 else 0
  let priceDisplay :=
    if 0 < price then (if price < 1000 then toFixedQ 2 price else toFixedQ 2 (price / 1000000)) ++ " MB"
    else "-"
  { type := type
    usableArea := if 0 < usable then toFixedQ 1 usable else "-"
    landArea := if 0 < land then toFixedQ 1 land else "-"
    totalUnits := total
    soldUnits := sold
    percentSold := perSold
    price := price
    priceStr := priceDisplay
    launchDate := launchDate
    saleSpeed := speed
    saleSpeed6m := speed6m
    history := history }

/-- One ID group becomes one `Project`, or is dropped when the first row's
coordinates are missing, unparseable or zero (`if (!lat || !lng) return`). -/
def mkProject (id : String) (rows : List Row) : Option Project :=
  match rows with
  | [] => none
  | baseRow :: _ =>
    let lat := (((getValue baseRow ["Latitude", "lat"]).getD "0") |> parseFloatQ).getD 0
    let lng := (((getValue baseRow ["Longitude", "lng", "lon"]).getD "0") |> parseFloatQ).getD 0
    if lat = 0 ∨ lng = 0 then none
    else
      let subUnits := rows.map mkSubUnit
      let projTotalUnits := (subUnits.map SubUnit.totalUnits).sum
      let projSoldUnits := (subUnits.map SubUnit.soldUnits).sum
      let projSaleSpeed6m := (subUnits.map SubUnit.saleSpeed6m).sum
      let projSaleSpeed := (subUnits.map SubUnit.saleSpeed).sum
      let prices := (subUnits.map SubUnit.price).filter (fun x => decide (0 < x))
      let projPercentSold := if projTotalUnits ≠ 0 then projSoldUnits / projTotalUnits * 100 else 0
      let priceRange :=
        if prices ≠ [] then
          let minP := qMin prices
          let maxP := qMax prices
          let minStr := if minP < 1000 then toFixedQ 2 minP else toFixedQ 2 (minP / 1000000)
          let maxStr := if maxP < 1000 then toFixedQ 2 maxP else toFixedQ 2 (maxP / 1000000)
          if minP = maxP then minStr ++ " MB" else minStr ++ " - " ++ maxStr ++ " MB"
        else "N/A"
      some
        { projectId := id
          lat := lat
          lng := lng
          code := (getValue baseRow codeKeys).getD "XX"
          name := (getValue baseRow ["Project Name", "Name", "Project"]).getD "Unknown"
          developer := (getValue baseRow ["Developer", "Dev"]).getD "-"
          subUnits := subUnits
          totalUnits := projTotalUnits
          soldUnits := projSoldUnits
          percentSold := projPercentSold
          priceRange := priceRange
          saleSpeed6m := projSaleSpeed6m
          saleSpeed := projSaleSpeed
          distance := none }

/-- Append a row to its ID group, or open a new group at the end
(JS object insertion order; integer-like ID strings, which JS would reorder
ahead of the others, do not occur in the data concerned). -/
def addToGroup (groups : List (String × List Row)) (id : String) (row : Row) :
    List (String × List Row) :=
  if groups.any (fun g => g.1 == id) then
    groups.map (fun g => if g.1 == id then (g.1, g.2 ++ [row]) else g)
  else groups ++ [(id, [row])]

/-- Grouping rows by resolved ID; rows without an ID are skipped. -/
def groupById (rows : List Row) : List (String × List Row) :=
  rows.foldl
    (fun gs row =>
      match getValue row idKeys with
      | some id => addToGroup gs id row
      | none => gs)
    []

/-- The whole normalizer on parsed rows: group by ID, one `Project` per group,
invalid-coordinate groups dropped. -/
def parseCSVRows (rows : List Row) : List Project :=
  (groupById rows).filterMap (fun g => mkProject g.1 g.2)

/-! ### Filter Pipeline and Sort Stage (App.tsx: `projectsInView`, `filteredProjects`) -/

/-- `projects.map(p => ({...p, distance: calculateDistance(searchState.lat,
searchState.lng, p.lat, p.lng)}))` for a distance function `dist`
(the haversine `calculateDistance`; the pipeline only ever compares its
value, so it is kept as a parameter of the embedding). -/
def setDistance (dist : ℚ → ℚ → ℚ → ℚ → ℚ) (s : SearchState) (p : Project) : Project :=
  { p with distance := some (dist s.lat s.lng p.lat p.lng) }

/-- A conditionally applied filter stage: `if (cond) data = data.filter(pred)`. -/
def stageFilter (c : Prop) [Decidable c] (pred : Project → Bool) (l : List Project) :
    List Project :=
  if c then l.filter pred else l

/-- The spatial predicate `(p.distance || 0) <= searchState.radius`. -/
def radiusPred (s : SearchState) (p : Project) : Bool :=
  decide (p.distance.getD 0 ≤ s.radius)

/-- `p.subUnits.some(u => searchState.typeFilter.includes(u.type))`. -/
def typeMatches (typeFilter : List String) (p : Project) : Bool :=
  p.subUnits.any (fun u => typeFilter.contains u.type)

/-- `p.subUnits.map(u => u.price).filter(price => price > 0)`. -/
def validPrices (p : Project) : List ℚ :=
  (p.subUnits.map SubUnit.price).filter (fun x => decide (0 < x))

/-- The min/max price-band predicate of the pipeline. -/
def pricePass (minPrice maxPrice : Option ℚ) (p : Project) : Bool :=
  let vp := validPrices p
  if vp.length = 0 then false
  else
    let projectMin := qMin vp
    let projectMax := qMax vp
    let meetsMin := match minPrice with | some m => decide (m ≤ projectMax) | none => true
    let meetsMax := match maxPrice with | some m => decide (projectMin ≤ m) | none => true
    meetsMin && meetsMax

/-- The launch-date-floor predicate for a parsed floor value `minVal`. -/
def launchPass (minVal : ℚ) (p : Project) : Bool :=
  let validDates := (p.subUnits.map SubUnit.launchDate).filterMap parseFloatQ
  if validDates.length = 0 then false
  else validDates.any (fun d => decide (minVal ≤ d))

/-- The launch-date stage: active only when `minLaunchDate` is truthy and
parses to a number. -/
def launchStage (o : Option String) (l : List Project) : List Project :=
  match o with
  | some str =>
    if str ≠ "" then
      match parseFloatQ str with
      | some minVal => l.filter (launchPass minVal)
      | none => l
    else l
  | none => l

/-- The sold-percent predicate `parseFloat(p.percentSold) <= maxSoldPercent`
(the field holds a `toFixed(1)` string, hence `roundTo 1`). -/
def soldPred (s : SearchState) (p : Project) : Bool :=
  decide (roundTo 1 p.percentSold ≤ s.maxSoldPercent)

/-- The band of a price segment name, `getSegmentRange`; `⊤` models `Infinity`. -/
structure SegRange where
  min : ℚ
  max : WithTop ℚ
  deriving DecidableEq

/-- `getSegmentRange` (App.tsx), the eight fixed bands in millions. -/
def getSegmentRange (seg : String) : SegRange :=
  if seg = "< 0.5" then ⟨0, (1 / 2 : ℚ)⟩
  else if seg = "0.5-1.0" then ⟨1 / 2, (1 : ℚ)⟩
  else if seg = "1.0-2.0" then ⟨1, (2 : ℚ)⟩
  else if seg = "2.0-3.0" then ⟨2, (3 : ℚ)⟩
  else if seg = "3.0-5.0" then ⟨3, (5 : ℚ)⟩
  else if seg = "5.0-10" then ⟨5, (10 : ℚ)⟩
  else if seg = "10-20" then ⟨10, (20 : ℚ)⟩
  else if seg = "> 20" then ⟨20, ⊤⟩
  else ⟨0, ⊤⟩

/-- The price-segment predicate: a project with positive prices passes iff
`projectMin < range.max && projectMax >= range.min`. -/
def segmentPass (seg : String) (p : Project) : Bool :=
  let r := getSegmentRange seg
  let vp := validPrices p
  if vp.length = 0 then false
  else decide ((qMin vp : WithTop ℚ) < r.max) && decide (r.min ≤ qMax vp)

/-- The price-segment stage: active only when `priceSegment` is truthy. -/
def segmentStage (o : Option String) (l : List Project) : List Project :=
  match o with
  | some seg => if seg ≠ "" then l.filter (segmentPass seg) else l
  | none => l

/-- `projectsInView` (App.tsx): distance decoration followed by the spatial
(location-mode only), type, price-band, launch-floor, sold-percent and
price-segment stages, in source order. -/
def projectsInView (dist : ℚ → ℚ → ℚ → ℚ → ℚ) (s : SearchState) (projects : List Project) :
    List Project :=
  segmentStage s.priceSegment
    (stageFilter (s.maxSoldPercent < 100) (soldPred s)
      (launchStage s.minLaunchDate
        (stageFilter (s.minPrice ≠ none ∨ s.maxPrice ≠ none) (pricePass s.minPrice s.maxPrice)
          (stageFilter (s.typeFilter ≠ []) (typeMatches s.typeFilter)
            (stageFilter (s.searchMode = SearchMode.location) (radiusPred s)
              (projects.map (setDistance dist s)))))))

/-- The code filter of `filteredProjects`. -/
def codeFiltered (s : SearchState) (l : List Project) : List Project :=
  stageFilter (s.codeFilter ≠ []) (fun p => s.codeFilter.contains p.code) l

/-- The minimum positive subunit price used by the price sort keys
(`getPrice` in the comparator), `0` when there is none. -/
def minPositivePrice (p : Project) : ℚ :=
  let prices := validPrices p
  if prices.length > 0 then qMin prices else 0

/-- `getLaunch` in the `launchDate` comparator: the lexicographically smallest
launch token among subunits, skipping empty and `"-"`, else `""`. -/
def getLaunch (p : Project) : String :=
  let dates := List.insertionSort (· ≤ ·)
    ((p.subUnits.map SubUnit.launchDate).filter (fun d => d ≠ "" && d ≠ "-"))
  match dates with
  | [] => ""
  | d :: _ => d

/-- `localeCompare` on the tokens concerned: code-unit string comparison
mapped to -1/0/1. -/
def strCmp (a b : String) : ℚ :=
  if a < b then -1 else if b < a then 1 else 0

/-- The sort comparator of `filteredProjects` for each key; the default
(final) branch is the ascending-distance comparator. -/
def sortCmp (key : SortKey) (a b : Project) : ℚ :=
  match key with
  | SortKey.percentSold => roundTo 1 b.percentSold - roundTo 1 a.percentSold
  | SortKey.speed6m => roundTo 2 b.saleSpeed6m - roundTo 2 a.saleSpeed6m
  | SortKey.speed => roundTo 2 b.saleSpeed - roundTo 2 a.saleSpeed
  | SortKey.unitLeft => (b.totalUnits - b.soldUnits) - (a.totalUnits - a.soldUnits)
  | SortKey.launchDate => strCmp (getLaunch b) (getLaunch a)
  | SortKey.priceAsc =>
    let priceA := minPositivePrice a
    let priceB := minPositivePrice b
    if priceA = 0 ∧ 0 < priceB then 1
    else if priceB = 0 ∧ 0 < priceA then -1
    else priceA - priceB
  | SortKey.priceDesc =>
    let priceA := minPositivePrice a
    let priceB := minPositivePrice b
    if priceA = 0 ∧ 0 < priceB then 1
    else if priceB = 0 ∧ 0 < priceA then -1
    else priceB - priceA
  | SortKey.distance => a.distance.getD 0 - b.distance.getD 0

/-- The order produced by `Array.sort(cmp)`: `a` precedes (or ties) `b`
when the comparator is non-positive. -/
def sortLE (key : SortKey) (a b : Project) : Prop := sortCmp key a b ≤ 0

instance (key : SortKey) : DecidableRel (sortLE key) :=
  fun a b => inferInstanceAs (Decidable (sortCmp key a b ≤ 0))

/-- `filteredProjects` (App.tsx): code filter then sort.  JS `Array.sort` is
stable and the comparators define total preorders, so it is modelled by the
(stable) insertion sort. -/
def filteredProjects (dist : ℚ → ℚ → ℚ → ℚ → ℚ) (s : SearchState) (projects : List Project) :
    List Project :=
  List.insertionSort (sortLE s.sortBy) (codeFiltered s (projectsInView dist s projects))

/-- `handleResetFilters` (App.tsx). -/
def handleResetFilters (s : SearchState) : SearchState :=
  { s with
    radius := 3
    codeFilter := []
    typeFilter := []
    minPrice := none
    maxPrice := none
    minLaunchDate := none
    maxSoldPercent := 100 }

/-! ### Aggregation engine (components/ExportDashboard.tsx) -/

/-- Result of `getProjectWeightedPriceStats`. -/
structure PriceStats where
  avgPrice : ℚ
  weightedPriceSum : ℚ
  weightedUnitsSum : ℚ
  deriving Repr, DecidableEq

/-- The accumulation guard of `getProjectWeightedPriceStats`:
`isTypeMatch && u.price > 0 && u.totalUnits > 0`. -/
def qualifies (activeTypes : List String) (u : SubUnit) : Bool :=
  (activeTypes.isEmpty || activeTypes.contains u.type) &&
    decide (0 < u.price) && decide (0 < u.totalUnits)

/-- One `forEach` step of `getProjectWeightedPriceStats`, accumulating
`(weightedPriceSum, weightedUnitsSum)`. -/
def statsStep (activeTypes : List String) (acc : ℚ × ℚ) (u : SubUnit) : ℚ × ℚ :=
  if qualifies activeTypes u then (acc.1 + u.price * u.totalUnits, acc.2 + u.totalUnits)
  else acc

/-- `getProjectWeightedPriceStats(p)`: weighted average price over subunits
matching the active-type restriction with `price > 0 && totalUnits > 0`. -/
def getProjectWeightedPriceStats (activeTypes : List String) (p : Project) : PriceStats :=
  let f := p.subUnits.foldl (statsStep activeTypes) (0, 0)
  { avgPrice := if 0 < f.2 then f.1 / f.2 else 0
    weightedPriceSum := f.1
    weightedUnitsSum := f.2 }

/-- The histogram's unit-scale heuristic: a value below 1000 is taken as
already in millions, otherwise it is divided by 1,000,000. -/
def priceMBOf (avgPrice : ℚ) : ℚ :=
  if avgPrice < 1000 then avgPrice else avgPrice / 1000000

/-- The segmentation if-chain of `stats`: bucket index for a price in
millions (upper-inclusive bounds except the first). -/
def segmentIndex (priceMB : ℚ) : Nat :=
  if priceMB < 1 / 2 then 0
  else if priceMB ≤ 1 then 1
  else if priceMB ≤ 2 then 2
  else if priceMB ≤ 3 then 3
  else if priceMB ≤ 5 then 4
  else if priceMB ≤ 10 then 5
  else if priceMB ≤ 20 then 6
  else 7

/-- The `priceSegments` label/upper-bound table of `stats`. -/
def priceSegments : List (String × WithTop ℚ) :=
  [("< 0.5", (1 / 2 : ℚ)), ("0.5-1.0", (1 : ℚ)), ("1.0-2.0", (2 : ℚ)), ("2.0-3.0", (3 : ℚ)),
   ("3.0-5.0", (5 : ℚ)), ("5.0-10", (10 : ℚ)), ("10-20", (20 : ℚ)), ("> 20", ⊤)]

/-- `priceCounts[idx]++`. -/
def bumpAt : List ℕ → Nat → List ℕ
  | [], _ => []
  | c :: cs, 0 => (c + 1) :: cs
  | c :: cs, Nat.succ n => c :: bumpAt cs n

/-- One `forEach` step of the histogram: a project with a positive
weighted-units sum increments the bucket of its average price (in millions). -/
def histStep (activeTypes : List String) (counts : List ℕ) (p : Project) : List ℕ :=
  let st := getProjectWeightedPriceStats activeTypes p
  if 0 < st.weightedUnitsSum then bumpAt counts (segmentIndex (priceMBOf st.avgPrice))
  else counts

/-- The eight histogram bucket counts of `stats`. -/
def priceCounts (activeTypes : List String) (projects : List Project) : List ℕ :=
  projects.foldl (histStep activeTypes) (List.replicate 8 0)

/-! ### Concrete sample data used by examples and witnesses -/

/-- First row of the spec's two-row normalization example (P1, Condo). -/
def exRowCondo : Row :=
  [("ID", "P1"), ("lat", "13.75"), ("lng", "100.50"), ("Type", "Condo"),
   ("Total units", "100"), ("Sold Units", "40"), ("Price", "2500000")]

/-- Second row of the spec's two-row normalization example (P1, Townhouse). -/
def exRowTown : Row :=
  [("ID", "P1"), ("lat", "13.75"), ("lng", "100.50"), ("Type", "Townhouse"),
   ("Total units", "50"), ("Sold Units", "50"), ("Price", "5000000")]

/-- A row whose sold-unit count exceeds its total-unit count. -/
def exRowOversold : Row :=
  [("ID", "P2"), ("lat", "13.75"), ("lng", "100.5"),
   ("Total units", "100"), ("Sold Units", "200")]

/-- A row with sold within total (used to instantiate the bound theorem). -/
def exRowBounded : Row :=
  [("ID", "P3"), ("lat", "13.75"), ("lng", "100.5"),
   ("Total units", "80"), ("Sold Units", "20")]

/-- A subunit with a positive price but zero units on offer. -/
def exUnitNoStock : SubUnit :=
  { type := "Condo", usableArea := "-", landArea := "-", totalUnits := 0, soldUnits := 0,
    percentSold := 0, price := 1, priceStr := "-", launchDate := "-", saleSpeed := 0,
    saleSpeed6m := 0, history := [] }

/-- A project whose only subunit has a positive price but zero units. -/
def exProjNoStock : Project :=
  { projectId := "X", lat := 1, lng := 1, code := "XX", name := "N", developer := "-",
    subUnits := [exUnitNoStock], totalUnits := 0, soldUnits := 0, percentSold := 0,
    priceRange := "N/A", saleSpeed6m := 0, saleSpeed := 0, distance := none }

/-- A subunit priced exactly at 1 (million) with one unit. -/
def exUnitMB1 : SubUnit :=
  { type := "Condo", usableArea := "-", landArea := "-", totalUnits := 1, soldUnits := 0,
    percentSold := 0, price := 1, priceStr := "1.00 MB", launchDate := "23.01", saleSpeed := 0,
    saleSpeed6m := 0, history := [] }

/-- A project whose weighted average price is exactly 1 (million). -/
def exProjMB1 : Project :=
  { projectId := "Y", lat := 2, lng := 2, code := "A1", name := "M", developer := "-",
    subUnits := [exUnitMB1], totalUnits := 1, soldUnits := 0, percentSold := 0,
    priceRange := "1.00 MB", saleSpeed6m := 0, saleSpeed := 0, distance := none }

/-- A project with no subunits at all (hence no positive price). -/
def exProjEmpty : Project :=
  { projectId := "Z", lat := 3, lng := 3, code := "B2", name := "E", developer := "-",
    subUnits := [], totalUnits := 0, soldUnits := 0, percentSold := 0,
    priceRange := "N/A", saleSpeed6m := 0, saleSpeed := 0, distance := none }

/-- A constant distance function used to instantiate pipeline theorems. -/
def exDist : ℚ → ℚ → ℚ → ℚ → ℚ := fun _ _ _ _ => 1

/-- A location-mode search state with default-like fields. -/
def exState : SearchState :=
  { lat := 0, lng := 0, radius := 3, searchMode := SearchMode.location, codeFilter := [],
    typeFilter := [], sortBy := SortKey.distance, minPrice := none, maxPrice := none,
    minLaunchDate := none, maxSoldPercent := 100, priceSegment := none }

/-- The same state sorting by ascending price. -/
def exStateAsc : SearchState :=
  { exState with sortBy := SortKey.priceAsc }

/-! ### Supporting lemmas: Math.min / Math.max folds -/

lemma foldl_min_le_init (l : List ℚ) : ∀ a : ℚ, List.foldl min a l ≤ a := by
  induction l with
  | nil => intro a; simp
  | cons x xs ih => intro a; exact le_trans (ih (min a x)) (min_le_left a x)

lemma foldl_min_le_mem (l : List ℚ) : ∀ a x : ℚ, x ∈ l → List.foldl min a l ≤ x := by
  induction l with
  | nil => intro a x hx; cases hx
  | cons y ys ih =>
    intro a x hx
    rcases List.mem_cons.mp hx with rfl | hx
    · exact le_trans (foldl_min_le_init ys (min a x)) (min_le_right a x)
    · exact ih (min a y) x hx

lemma foldl_min_mem (l : List ℚ) : ∀ a : ℚ, List.foldl min a l = a ∨ List.foldl min a l ∈ l := by
  induction l with
  | nil => intro a; left; rfl
  | cons x xs ih =>
    intro a
    rcases ih (min a x) with h | h
    · rcases min_choice a x with h' | h'
      · left; rw [List.foldl_cons, h, h']
      · right; rw [List.foldl_cons, h, h']; exact List.mem_cons_self x xs
    · right; exact List.mem_cons_of_mem x h

lemma foldl_max_init_le (l : List ℚ) : ∀ a : ℚ, a ≤ List.foldl max a l := by
  induction l with
  | nil => intro a; simp
  | cons x xs ih => intro a; exact le_trans (le_max_left a x) (ih (max a x))

lemma foldl_max_mem_le (l : List ℚ) : ∀ a x : ℚ, x ∈ l → x ≤ List.foldl max a l := by
  induction l with
  | nil => intro a x hx; cases hx
  | cons y ys ih =>
    intro a x hx
    rcases List.mem_cons.mp hx with rfl | hx
    · exact le_trans (le_max_right a x) (foldl_max_init_le ys (max a x))
    · exact ih (max a y) x hx

lemma foldl_max_mem (l : List ℚ) : ∀ a : ℚ, List.foldl max a l = a ∨ List.foldl max a l ∈ l := by
  induction l with
  | nil => intro a; left; rfl
  | cons x xs ih =>
    intro a
    rcases ih (max a x) with h | h
    · rcases max_choice a x with h' | h'
      · left; rw [List.foldl_cons, h, h']
      · right; rw [List.foldl_cons, h, h']; exact List.mem_cons_self x xs
    · right; exact List.mem_cons_of_mem x h

lemma qMin_le {l : List ℚ} {x : ℚ} (hx : x ∈ l) : qMin l ≤ x := by
  cases l with
  | nil => cases hx
  | cons y ys =>
    rcases List.mem_cons.mp hx with rfl | hx
    · exact foldl_min_le_init ys x
    · exact foldl_min_le_mem ys y x hx

lemma qMin_mem {l : List ℚ} (h : l ≠ []) : qMin l ∈ l := by
  cases l with
  | nil => exact absurd rfl h
  | cons y ys =>
    show List.foldl min y ys ∈ y :: ys
    rcases foldl_min_mem ys y with h' | h'
    · rw [h']; exact List.mem_cons_self y ys
    · exact List.mem_cons_of_mem y h'

lemma le_qMax {l : List ℚ} {x : ℚ} (hx : x ∈ l) : x ≤ qMax l := by
  cases l with
  | nil => cases hx
  | cons y ys =>
    rcases List.mem_cons.mp hx with rfl | hx
    · exact foldl_max_init_le ys x
    · exact foldl_max_mem_le ys y x hx

lemma qMax_mem {l : List ℚ} (h : l ≠ []) : qMax l ∈ l := by
  cases l with
  | nil => exact absurd rfl h
  | cons y ys =>
    show List.foldl max y ys ∈ y :: ys
    rcases foldl_max_mem ys y with h' | h'
    · rw [h']; exact List.mem_cons_self y ys
    · exact List.mem_cons_of_mem y h'

lemma qMin_le_qMax {l : List ℚ} (h : l ≠ []) : qMin l ≤ qMax l :=
  le_qMax (qMin_mem h)

lemma validPrices_pos {p : Project} {x : ℚ} (hx : x ∈ validPrices p) : 0 < x :=
  of_decide_eq_true (List.mem_filter.mp hx).2

/-! ### Supporting lemmas: membership in the filter stages -/

lemma stageFilter_of_not {c : Prop} [Decidable c] {pred : Project → Bool}
    {l : List Project} (h : ¬c) : stageFilter c pred l = l :=
  if_neg h

lemma mem_stageFilter {c : Prop} [Decidable c] {pred : Project → Bool}
    {l : List Project} {a : Project} :
    a ∈ stageFilter c pred l ↔ a ∈ l ∧ (c → pred a = true) := by
  unfold stageFilter
  split_ifs with h
  · rw [List.mem_filter]
    exact and_congr_right fun _ => ⟨fun hp _ => hp, fun hp => hp h⟩
  · exact (and_iff_left fun hc => absurd hc h).symm

lemma mem_launchStage {o : Option String} {l : List Project} {a : Project} :
    a ∈ launchStage o l ↔
      a ∈ l ∧ (∀ str, o = some str → str ≠ "" →
        ∀ v, parseFloatQ str = some v → launchPass v a = true) := by
  cases o with
  | none =>
    refine (and_iff_left ?_).symm
    intro str hstr; cases hstr
  | some str =>
    by_cases hs : str = ""
    · subst hs
      refine Iff.trans (by rw [launchStage, if_neg (by simp)]) (and_iff_left ?_).symm
      intro str' hstr' hne
      cases hstr'
      exact absurd rfl hne
    · cases hp : parseFloatQ str with
      | none =>
        refine Iff.trans (by rw [launchStage, if_pos hs, hp]) (and_iff_left ?_).symm
        intro str' hstr' _ v hv
        cases hstr'
        rw [hp] at hv; cases hv
      | some v0 =>
        refine Iff.trans (by rw [launchStage, if_pos hs, hp]) ?_
        rw [List.mem_filter]
        refine and_congr_right fun _ => ⟨fun hpass str' hstr' _ v hv => ?_, fun h => ?_⟩
        · cases hstr'
          rw [hp] at hv
          cases hv
          exact hpass
        · exact h str rfl hs v0 hp

lemma mem_segmentStage {o : Option String} {l : List Project} {a : Project} :
    a ∈ segmentStage o l ↔
      a ∈ l ∧ (∀ seg, o = some seg → seg ≠ "" → segmentPass seg a = true) := by
  cases o with
  | none =>
    refine (and_iff_left ?_).symm
    intro seg hseg; cases hseg
  | some seg =>
    by_cases hs : seg = ""
    · subst hs
      refine Iff.trans (by rw [segmentStage, if_neg (by simp)]) (and_iff_left ?_).symm
      intro seg' hseg' hne
      cases hseg'
      exact absurd rfl hne
    · refine Iff.trans (by rw [segmentStage, if_pos hs]) ?_
      rw [List.mem_filter]
      refine and_congr_right fun _ => ⟨fun hpass seg' hseg' _ => ?_, fun h => h seg rfl hs⟩
      cases hseg'
      exact hpass

lemma setDistance_idem (dist : ℚ → ℚ → ℚ → ℚ → ℚ) (s : SearchState) (p : Project) :
    setDistance dist s (setDistance dist s p) = setDistance dist s p :=
  rfl

/-- Full membership characterization of `projectsInView`: the outputs are
exactly the distance-decorated inputs passing every active filter stage. -/
lemma mem_projectsInView {dist : ℚ → ℚ → ℚ → ℚ → ℚ} {s : SearchState}
    {ps : List Project} {q : Project} :
    q ∈ projectsInView dist s ps ↔
      (∃ p ∈ ps, setDistance dist s p = q) ∧
      (s.searchMode = SearchMode.location → radiusPred s q = true) ∧
      (s.typeFilter ≠ [] → typeMatches s.typeFilter q = true) ∧
      ((s.minPrice ≠ none ∨ s.maxPrice ≠ none) → pricePass s.minPrice s.maxPrice q = true) ∧
      (∀ str, s.minLaunchDate = some str → str ≠ "" →
        ∀ v, parseFloatQ str = some v → launchPass v q = true) ∧
      (s.maxSoldPercent < 100 → soldPred s q = true) ∧
      (∀ seg, s.priceSegment = some seg → seg ≠ "" → segmentPass seg q = true) := by
  unfold projectsInView
  rw [mem_segmentStage, mem_stageFilter, mem_launchStage, mem_stageFilter, mem_stageFilter,
    mem_stageFilter, List.mem_map]
  simp only [and_assoc]

/-- Membership characterization of the whole pipeline `filteredProjects`. -/
lemma mem_filteredProjects {dist : ℚ → ℚ → ℚ → ℚ → ℚ} {s : SearchState}
    {ps : List Project} {q : Project} :
    q ∈ filteredProjects dist s ps ↔
      q ∈ projectsInView dist s ps ∧
      (s.codeFilter ≠ [] → s.codeFilter.contains q.code = true) := by
  unfold filteredProjects codeFiltered
  rw [List.mem_insertionSort, mem_stageFilter]

/-- In code mode the radius is consulted nowhere in `projectsInView`. -/
lemma projectsInView_radius_invariant {dist : ℚ → ℚ → ℚ → ℚ → ℚ} {s : SearchState}
    {ps : List Project} (h : s.searchMode = SearchMode.code) (r : ℚ) :
    projectsInView dist { s with radius := r } ps = projectsInView dist s ps := by
  have h1 : ¬(SearchState.searchMode { s with radius := r } = SearchMode.location) := by
    simp [h]
  have h2 : ¬(s.searchMode = SearchMode.location) := by simp [h]
  unfold projectsInView
  rw [stageFilter_of_not h1, stageFilter_of_not h2]
  rfl

/-- In code mode the radius is consulted nowhere in the whole pipeline. -/
lemma filteredProjects_radius_invariant {dist : ℚ → ℚ → ℚ → ℚ → ℚ} {s : SearchState}
    {ps : List Project} (h : s.searchMode = SearchMode.code) (r : ℚ) :
    filteredProjects dist { s with radius := r } ps = filteredProjects dist s ps := by
  unfold filteredProjects codeFiltered
  rw [projectsInView_radius_invariant h]

/-- C1.  In `location` mode every project in the pipeline's output carries the
distance computed from the search center and that distance is at most the
radius; in `code` mode the radius is never consulted (the output is unchanged
under any radius), and a project passing the non-spatial filters and the code
filter appears in the output regardless of the distance function's values. -/
theorem location_mode_radius_bound_and_code_mode_ignores_radius
    (dist : ℚ → ℚ → ℚ → ℚ → ℚ) (s : SearchState) (ps : List Project) :
    (s.searchMode = SearchMode.location →
      ∀ q ∈ filteredProjects dist s ps,
        q.distance = some (dist s.lat s.lng q.lat q.lng) ∧ q.distance.getD 0 ≤ s.radius) ∧
    (s.searchMode = SearchMode.code →
      (∀ r, filteredProjects dist { s with radius := r } ps = filteredProjects dist s ps) ∧
      ∀ p ∈ ps,
        (s.typeFilter ≠ [] → typeMatches s.typeFilter (setDistance dist s p) = true) →
        ((s.minPrice ≠ none ∨ s.maxPrice ≠ none) →
          pricePass s.minPrice s.maxPrice (setDistance dist s p) = true) →
        (∀ str, s.minLaunchDate = some str → str ≠ "" →
          ∀ v, parseFloatQ str = some v → launchPass v (setDistance dist s p) = true) →
        (s.maxSoldPercent < 100 → soldPred s (setDistance dist s p) = true) →
        (∀ seg, s.priceSegment = some seg → seg ≠ "" →
          segmentPass seg (setDistance dist s p) = true) →
        (s.codeFilter ≠ [] → s.codeFilter.contains (setDistance dist s p).code = true) →
        setDistance dist s p ∈ filteredProjects dist s ps) := by
  constructor
  · intro hmode q hq
    obtain ⟨hview, -⟩ := mem_filteredProjects.mp hq
    obtain ⟨⟨p, -, hp⟩, hrad, -⟩ := mem_projectsInView.mp hview
    constructor
    · rw [← hp]; rfl
    · exact of_decide_eq_true (hrad hmode)
  · intro hmode
    refine ⟨filteredProjects_radius_invariant hmode, ?_⟩
    intro p hp htype hprice hlaunch hsold hseg hcode
    refine mem_filteredProjects.mpr ⟨mem_projectsInView.mpr ⟨⟨p, hp, rfl⟩, ?_, htype,
      hprice, hlaunch, hsold, hseg⟩, hcode⟩
    intro hloc
    rw [hmode] at hloc
    cases hloc

/-- C8.  The pipeline is idempotent: running `filteredProjects` on its own
output yields the same set of projects. -/
theorem filter_pipeline_idempotent (dist : ℚ → ℚ → ℚ → ℚ → ℚ) (s : SearchState)
    (ps : List Project) (q : Project) :
    q ∈ filteredProjects dist s (filteredProjects dist s ps) ↔
      q ∈ filteredProjects dist s ps := by
  constructor
  · intro h
    obtain ⟨hview, -⟩ := mem_filteredProjects.mp h
    obtain ⟨⟨p, hp, hq⟩, -⟩ := mem_projectsInView.mp hview
    obtain ⟨hview', -⟩ := mem_filteredProjects.mp hp
    obtain ⟨⟨p0, -, hq0⟩, -⟩ := mem_projectsInView.mp hview'
    have : q = p := by rw [← hq, ← hq0, setDistance_idem]
    rw [this]
    exact hp
  · intro h
    obtain ⟨hview, hcode⟩ := mem_filteredProjects.mp h
    obtain ⟨⟨p0, -, hq0⟩, hconds⟩ := mem_projectsInView.mp hview
    exact mem_filteredProjects.mpr
      ⟨mem_projectsInView.mpr ⟨⟨q, h, by rw [← hq0, setDistance_idem]⟩, hconds⟩, hcode⟩

/-- C9.  Resetting filters restores radius 3, empty code/type selections and
default price/launch/sold criteria while every other field — search mode,
center coordinate, sort key and the price-segment selector — keeps its prior
value. -/
theorem reset_filters_resets_criteria_and_preserves_rest (s : SearchState) :
    (handleResetFilters s).radius = 3 ∧
    (handleResetFilters s).codeFilter = [] ∧
    (handleResetFilters s).typeFilter = [] ∧
    (handleResetFilters s).minPrice = none ∧
    (handleResetFilters s).maxPrice = none ∧
    (handleResetFilters s).minLaunchDate = none ∧
    (handleResetFilters s).maxSoldPercent = 100 ∧
    (handleResetFilters s).searchMode = s.searchMode ∧
    (handleResetFilters s).lat = s.lat ∧
    (handleResetFilters s).lng = s.lng ∧
    (handleResetFilters s).sortBy = s.sortBy ∧
    (handleResetFilters s).priceSegment = s.priceSegment :=
  ⟨rfl, rfl, rfl, rfl, rfl, rfl, rfl, rfl, rfl, rfl, rfl, rfl⟩

/-! ### Supporting lemmas: the price-segment bands -/

lemma getSegmentRange_min_lt_max (seg : String) :
    ((getSegmentRange seg).min : WithTop ℚ) < (getSegmentRange seg).max := by
  unfold getSegmentRange
  split_ifs <;>
    first
      | exact WithTop.coe_lt_top _
      | exact WithTop.coe_lt_coe.mpr (by norm_num)

lemma overlap_iff {pmin pmax segMin : ℚ} {segMax : WithTop ℚ} (hpm : pmin ≤ pmax)
    (hseg : (segMin : WithTop ℚ) < segMax) :
    ((pmin : WithTop ℚ) < segMax ∧ segMin ≤ pmax) ↔
      ∃ x : ℚ, (pmin ≤ x ∧ x ≤ pmax) ∧ (segMin ≤ x ∧ (x : WithTop ℚ) < segMax) := by
  constructor
  · rintro ⟨h1, h2⟩
    refine ⟨max pmin segMin, ⟨le_max_left _ _, max_le hpm h2⟩, le_max_right _ _, ?_⟩
    rcases max_cases pmin segMin with ⟨heq, -⟩ | ⟨heq, -⟩ <;> rw [heq]
    · exact h1
    · exact hseg
  · rintro ⟨x, ⟨hx1, hx2⟩, hx3, hx4⟩
    exact ⟨lt_of_le_of_lt (WithTop.coe_le_coe.mpr hx1) hx4, le_trans hx3 hx2⟩

lemma segmentPass_iff {seg : String} {p : Project} :
    segmentPass seg p = true ↔
      validPrices p ≠ [] ∧ ((qMin (validPrices p) : WithTop ℚ) < (getSegmentRange seg).max ∧
        (getSegmentRange seg).min ≤ qMax (validPrices p)) := by
  unfold segmentPass
  dsimp only
  by_cases h : (validPrices p).length = 0
  · rw [if_pos h]
    simp [List.length_eq_zero.mp h]
  · rw [if_neg h]
    rw [Bool.and_eq_true, decide_eq_true_iff, decide_eq_true_iff]
    have hne : validPrices p ≠ [] := fun hh => h (by rw [hh]; rfl)
    exact ⟨fun ⟨h1, h2⟩ => ⟨hne, h1, h2⟩, fun ⟨_, h1, h2⟩ => ⟨h1, h2⟩⟩

/-- C3.  With a selected price segment, the segment filter admits a project
iff its positive-price range `[projectMin, projectMax]` meets
`projectMin < segment.max` and `projectMax ≥ segment.min` — equivalently, iff
that range intersects the half-open band `[segment.min, segment.max)`; a
project with no positive-price subunit is excluded, the eight bands carry the
fixed bounds (in millions), and every pipeline survivor under an active
segment passes the segment filter. -/
theorem price_segment_filter_overlap (seg : String) (p : Project) :
    (segmentPass seg p = true ↔
      validPrices p ≠ [] ∧ ((qMin (validPrices p) : WithTop ℚ) < (getSegmentRange seg).max ∧
        (getSegmentRange seg).min ≤ qMax (validPrices p))) ∧
    (segmentPass seg p = true ↔
      validPrices p ≠ [] ∧ ∃ x : ℚ, (qMin (validPrices p) ≤ x ∧ x ≤ qMax (validPrices p)) ∧
        ((getSegmentRange seg).min ≤ x ∧ (x : WithTop ℚ) < (getSegmentRange seg).max)) ∧
    (validPrices p = [] → segmentPass seg p = false) ∧
    (getSegmentRange "< 0.5" = ⟨0, ((1 : ℚ) / 2 : ℚ)⟩ ∧
      getSegmentRange "0.5-1.0" = ⟨1 / 2, (1 : ℚ)⟩ ∧
      getSegmentRange "1.0-2.0" = ⟨1, (2 : ℚ)⟩ ∧
      getSegmentRange "2.0-3.0" = ⟨2, (3 : ℚ)⟩ ∧
      getSegmentRange "3.0-5.0" = ⟨3, (5 : ℚ)⟩ ∧
      getSegmentRange "5.0-10" = ⟨5, (10 : ℚ)⟩ ∧
      getSegmentRange "10-20" = ⟨10, (20 : ℚ)⟩ ∧
      getSegmentRange "> 20" = ⟨20, ⊤⟩) ∧
    (∀ (dist : ℚ → ℚ → ℚ → ℚ → ℚ) (s : SearchState) (ps : List Project),
      s.priceSegment = some seg → seg ≠ "" →
      p ∈ filteredProjects dist s ps → segmentPass seg p = true) := by
  refine ⟨segmentPass_iff, ?_, ?_, ?_, ?_⟩
  · rw [segmentPass_iff]
    exact and_congr_right fun hne =>
      overlap_iff (qMin_le_qMax hne) (getSegmentRange_min_lt_max seg)
  · intro h
    unfold segmentPass
    dsimp only
    rw [if_pos (by rw [h]; rfl)]
  · refine ⟨rfl, rfl, rfl, rfl, rfl, rfl, rfl, rfl⟩
  · intro dist s ps hseg hne hmem
    exact (mem_projectsInView.mp (mem_filteredProjects.mp hmem).1).2.2.2.2.2.2 seg hseg hne

/-! ### Supporting lemmas: the price-segment histogram -/

lemma statsFold_snd (activeTypes : List String) :
    ∀ (us : List SubUnit) (ab : ℚ × ℚ),
      (us.foldl (statsStep activeTypes) ab).2 =
        ab.2 + ((us.filter (qualifies activeTypes)).map SubUnit.totalUnits).sum := by
  intro us
  induction us with
  | nil => intro ab; simp
  | cons u us ih =>
    intro ab
    rw [List.foldl_cons]
    by_cases h : qualifies activeTypes u = true
    · rw [List.filter_cons_of_pos h, List.map_cons, List.sum_cons, ih]
      unfold statsStep
      rw [if_pos h]
      ring
    · rw [List.filter_cons_of_neg (by simpa using h), ih]
      unfold statsStep
      rw [if_neg (by simpa using h)]

lemma sum_nonneg_q : ∀ {l : List ℚ}, (∀ x ∈ l, 0 ≤ x) → 0 ≤ l.sum := by
  intro l
  induction l with
  | nil => intro _; simp
  | cons y ys ih =>
    intro hnn
    rw [List.sum_cons]
    have h0 : (0 : ℚ) ≤ y := hnn y (by simp)
    have h1 : 0 ≤ ys.sum := ih fun w hw => hnn w (List.mem_cons_of_mem y hw)
    linarith

lemma le_sum_of_mem_nonneg : ∀ {l : List ℚ}, (∀ x ∈ l, 0 ≤ x) → ∀ {x : ℚ}, x ∈ l → x ≤ l.sum := by
  intro l
  induction l with
  | nil => intro _ x hx; cases hx
  | cons y ys ih =>
    intro hnn x hx
    rw [List.sum_cons]
    rcases List.mem_cons.mp hx with rfl | hx
    · have : 0 ≤ ys.sum := sum_nonneg_q fun w hw => hnn w (List.mem_cons_of_mem x hw)
      linarith
    · have h0 : 0 ≤ y := hnn y (by simp)
      have := ih (fun w hw => hnn w (List.mem_cons_of_mem y hw)) hx
      linarith

lemma qualifies_totalUnits_pos {activeTypes : List String} {u : SubUnit}
    (h : qualifies activeTypes u = true) : 0 < u.totalUnits := by
  unfold qualifies at h
  rw [Bool.and_eq_true, Bool.and_eq_true] at h
  exact of_decide_eq_true h.2

lemma wsum_pos_iff (activeTypes : List String) (p : Project) :
    0 < (getProjectWeightedPriceStats activeTypes p).weightedUnitsSum ↔
      ∃ u ∈ p.subUnits, qualifies activeTypes u = true := by
  have hw : (getProjectWeightedPriceStats activeTypes p).weightedUnitsSum =
      ((p.subUnits.filter (qualifies activeTypes)).map SubUnit.totalUnits).sum := by
    show (p.subUnits.foldl (statsStep activeTypes) (0, 0)).2 = _
    rw [statsFold_snd]
    ring
  rw [hw]
  constructor
  · intro hpos
    by_contra hn
    push_neg at hn
    rw [List.filter_eq_nil_iff.mpr (by intro u hu; simpa using hn u hu)] at hpos
    exact absurd hpos (by norm_num)
  · rintro ⟨u, hu, hq⟩
    have hmem : u ∈ p.subUnits.filter (qualifies activeTypes) :=
      List.mem_filter.mpr ⟨hu, hq⟩
    have hle : u.totalUnits ≤ ((p.subUnits.filter (qualifies activeTypes)).map
        SubUnit.totalUnits).sum := by
      refine le_sum_of_mem_nonneg ?_ (List.mem_map.mpr ⟨u, hmem, rfl⟩)
      intro x hx
      obtain ⟨u', hu', rfl⟩ := List.mem_map.mp hx
      exact le_of_lt (qualifies_totalUnits_pos (List.mem_filter.mp hu').2)
    exact lt_of_lt_of_le (qualifies_totalUnits_pos hq) hle

lemma bumpAt_sum : ∀ (counts : List ℕ) (idx : Nat), idx < counts.length →
    (bumpAt counts idx).sum = counts.sum + 1 := by
  intro counts
  induction counts with
  | nil => intro idx h; cases h
  | cons c cs ih =>
    intro idx h
    cases idx with
    | zero => simp [bumpAt, List.sum_cons]; omega
    | succ n =>
      rw [bumpAt, List.sum_cons, List.sum_cons, ih n (by simpa using h)]
      omega

lemma bumpAt_length : ∀ (counts : List ℕ) (idx : Nat),
    (bumpAt counts idx).length = counts.length := by
  intro counts
  induction counts with
  | nil => intro idx; rfl
  | cons c cs ih =>
    intro idx
    cases idx with
    | zero => rfl
    | succ n => rw [bumpAt, List.length_cons, List.length_cons, ih n]

lemma segmentIndex_lt_eight (q : ℚ) : segmentIndex q < 8 := by
  unfold segmentIndex
  split_ifs <;> norm_num

lemma histStep_length (activeTypes : List String) (counts : List ℕ) (p : Project) :
    (histStep activeTypes counts p).length = counts.length := by
  unfold histStep
  dsimp only
  split_ifs with h
  · exact bumpAt_length counts _
  · rfl

lemma histFold_sum (activeTypes : List String) :
    ∀ (ps : List Project) (counts : List ℕ), counts.length = 8 →
      (ps.foldl (histStep activeTypes) counts).sum =
        counts.sum + (ps.filter (fun p =>
          decide (0 < (getProjectWeightedPriceStats activeTypes p).weightedUnitsSum))).length := by
  intro ps
  induction ps with
  | nil => intro counts _; simp
  | cons p ps ih =>
    intro counts hlen
    rw [List.foldl_cons]
    by_cases h : 0 < (getProjectWeightedPriceStats activeTypes p).weightedUnitsSum
    · rw [List.filter_cons_of_pos (by simpa using h), List.length_cons]
      have hstep : histStep activeTypes counts p =
          bumpAt counts (segmentIndex (priceMBOf
            (getProjectWeightedPriceStats activeTypes p).avgPrice)) := by
        unfold histStep; dsimp only; rw [if_pos h]
      rw [ih (histStep activeTypes counts p) (by rw [histStep_length, hlen]), hstep,
        bumpAt_sum counts _ (by rw [hlen]; exact segmentIndex_lt_eight _)]
      omega
    · rw [List.filter_cons_of_neg (by simpa using h)]
      have hstep : histStep activeTypes counts p = counts := by
        unfold histStep; dsimp only; rw [if_neg h]
      rw [ih (histStep activeTypes counts p) (by rw [histStep_length, hlen]), hstep]

/-- C2 (counterexample).  A project whose only subunit has a positive price
but zero total units is excluded from every histogram bucket, so the bucket
counts do not sum to the number of projects having a subunit with
`price > 0`. -/
theorem histogram_sum_counterexample :
    ¬ ((priceCounts [] [exProjNoStock]).sum =
        ([exProjNoStock].filter (fun p =>
          p.subUnits.any (fun u => decide (0 < u.price)))).length) :=
  of_decide_eq_true (by with_unfolding_all rfl)

/-- C2 (amended).  The eight bucket counts sum to the number of filtered
projects having at least one subunit that matches the active-type restriction
and has both `price > 0` and `totalUnits > 0`. -/
theorem histogram_sum_amended (activeTypes : List String) (ps : List Project) :
    (priceCounts activeTypes ps).sum =
      (ps.filter (fun p => p.subUnits.any (qualifies activeTypes))).length := by
  unfold priceCounts
  rw [histFold_sum activeTypes ps (List.replicate 8 0) (by simp)]
  rw [List.sum_replicate, smul_zero]
  rw [List.filter_congr (fun p _ => ?_)]
  · ring
  · rw [Bool.eq_iff_iff, decide_eq_true_iff, List.any_eq_true]
    exact wsum_pos_iff activeTypes p

/-- C10.  The histogram's bucketing is upper-inclusive: a counted project is
placed in `segmentIndex` of its average price (in millions); at the interior
band boundaries 1, 2, 3, 5, 10 and 20 the index names the band having the
boundary as its upper bound, while 0.5 falls in the band having it as its
lower bound; the filter's bands, by contrast, include their lower bound
(a project priced exactly 1.0 passes the `1.0-2.0` filter band, not
`0.5-1.0`). -/
theorem histogram_boundary_bucketing (activeTypes : List String) (p : Project)
    (h : 0 < (getProjectWeightedPriceStats activeTypes p).weightedUnitsSum) :
    priceCounts activeTypes [p] =
      bumpAt (List.replicate 8 0)
        (segmentIndex (priceMBOf (getProjectWeightedPriceStats activeTypes p).avgPrice)) ∧
    (segmentIndex (1 / 2) = 1 ∧ segmentIndex 1 = 1 ∧ segmentIndex 2 = 2 ∧
      segmentIndex 3 = 3 ∧ segmentIndex 5 = 4 ∧ segmentIndex 10 = 5 ∧
      segmentIndex 20 = 6) ∧
    (priceSegments.get? 0 = some ("< 0.5", (((1 : ℚ) / 2 : ℚ) : WithTop ℚ)) ∧
      priceSegments.get? 1 = some ("0.5-1.0", ((1 : ℚ) : WithTop ℚ)) ∧
      priceSegments.get? 2 = some ("1.0-2.0", ((2 : ℚ) : WithTop ℚ)) ∧
      priceSegments.get? 3 = some ("2.0-3.0", ((3 : ℚ) : WithTop ℚ)) ∧
      priceSegments.get? 4 = some ("3.0-5.0", ((5 : ℚ) : WithTop ℚ)) ∧
      priceSegments.get? 5 = some ("5.0-10", ((10 : ℚ) : WithTop ℚ)) ∧
      priceSegments.get? 6 = some ("10-20", ((20 : ℚ) : WithTop ℚ))) ∧
    (segmentPass "1.0-2.0" exProjMB1 = true ∧ segmentPass "0.5-1.0" exProjMB1 = false) := by
  refine ⟨?_, of_decide_eq_true (by with_unfolding_all rfl)⟩
  unfold priceCounts
  rw [List.foldl_cons, List.foldl_nil]
  unfold histStep
  dsimp only
  rw [if_pos h]

/-! ### Supporting lemmas: the history-key comparator -/

lemma hLE_total (a b : String) : hLE a b ∨ hLE b a := by
  unfold hLE hCmp
  cases ha : (parseHKey a).is12m <;> cases hb : (parseHKey b).is12m <;>
    by_cases hy : (parseHKey a).year = (parseHKey b).year <;>
      simp [ha, hb, hy] <;> omega

lemma hLE_trans (a b c : String) : hLE a b → hLE b c → hLE a c := by
  intro h1 h2
  unfold hLE hCmp at h1 h2 ⊢
  cases ha : (parseHKey a).is12m <;> cases hb : (parseHKey b).is12m <;>
    cases hc : (parseHKey c).is12m <;>
    simp [ha, hb, hc] at h1 h2 ⊢ <;>
    by_cases hy1 : (parseHKey a).year = (parseHKey b).year <;>
      by_cases hy2 : (parseHKey b).year = (parseHKey c).year <;>
        by_cases hy3 : (parseHKey a).year = (parseHKey c).year <;>
          simp [hy1, hy2, hy3] at h1 h2 ⊢ <;> omega

/-- The head of an insertion sort under a total transitive relation is below
every element of the input. -/
lemma insertionSort_head_min {α : Type} {r : α → α → Prop} [DecidableRel r]
    (total : ∀ a b, r a b ∨ r b a) (htrans : ∀ a b c, r a b → r b c → r a c)
    (l : List α) (h : α) (t : List α) (he : List.insertionSort r l = h :: t) :
    ∀ k ∈ l, r h k := by
  haveI : IsTotal α r := ⟨total⟩
  haveI : IsTrans α r := ⟨htrans⟩
  intro k hk
  have hs := List.sorted_insertionSort r l
  rw [he] at hs
  have hk' : k ∈ h :: t := by
    rw [← he, List.mem_insertionSort]
    exact hk
  rcases List.mem_cons.mp hk' with rfl | hk'
  · rcases total k k with hkk | hkk <;> exact hkk
  · exact (List.sorted_cons.mp hs).1 k hk'

lemma lookup_of_mem_keys {k : String} {l : List (String × ℚ)}
    (hk : k ∈ l.map Prod.fst) : ∃ v, List.lookup k l = some v := by
  induction l with
  | nil => cases hk
  | cons kv rest ih =>
    by_cases h : k = kv.1
    · exact ⟨kv.2, by simp [List.lookup, h]⟩
    · rw [List.map_cons] at hk
      rcases List.mem_cons.mp hk with h1 | h1

      · exact absurd h1 h
      · obtain ⟨v, hv⟩ := ih h1
        have hb : (k == kv.1) = false := beq_eq_false_iff_ne.mpr h
        exact ⟨v, by simp [List.lookup, hb, hv]⟩

/-- C4.  When the canonical 6-month speed is zero and the history map is
non-empty, the backfilled value is the history value of a key that sorts
no later than every history key under the comparator — `(12M)`-marked keys
first, then year descending, then half descending; in particular the spec's
example history backfills to 0.9. -/
theorem speed6m_backfill_latest_history (speed6m : ℚ) (history : List (String × ℚ)) :
    (speed6m ≠ 0 → backfillSpeed6m speed6m history = speed6m) ∧
    (history = [] → backfillSpeed6m speed6m history = speed6m) ∧
    (speed6m = 0 → history ≠ [] →
      ∃ k v, k ∈ history.map Prod.fst ∧ (∀ k' ∈ history.map Prod.fst, hCmp k k' ≤ 0) ∧
        List.lookup k history = some v ∧ backfillSpeed6m speed6m history = v) ∧
    backfillSpeed6m 0 [("H1.67", 6 / 5), ("H2.67", 9 / 10)] = 9 / 10 := by
  refine ⟨?_, ?_, ?_, of_decide_eq_true (by with_unfolding_all rfl)⟩
  · intro h
    unfold backfillSpeed6m
    rw [if_neg fun hh => h hh.1]
  · intro h
    unfold backfillSpeed6m
    rw [if_neg fun hh => hh.2 h]
  · intro h0 hne
    unfold backfillSpeed6m
    rw [if_pos ⟨h0, hne⟩]
    cases hsort : List.insertionSort hLE (history.map Prod.fst) with
    | nil =>
      exfalso
      have hlen := congrArg List.length hsort
      rw [List.length_insertionSort, List.length_map, List.length_nil] at hlen
      exact hne (List.length_eq_zero.mp hlen)
    | cons k t =>
      have hkmem : k ∈ history.map Prod.fst := by
        rw [← List.mem_insertionSort (r := hLE), hsort]
        exact List.mem_cons_self _ _
      obtain ⟨v, hv⟩ := lookup_of_mem_keys hkmem
      refine ⟨k, v, hkmem, ?_, hv, ?_⟩
      · exact insertionSort_head_min hLE_total hLE_trans _ k t hsort
      · show (List.lookup k history).getD 0 = v
        rw [hv]
        rfl

/-- C5 (counterexample).  The spec's two-row example yields exactly one
project, but its price-range string is not `"2.50 MB - 5.00 MB"` (the code
writes the `MB` unit only once, after the upper bound). -/
theorem normalizer_example_counterexample :
    (parseCSVRows [exRowCondo, exRowTown]).length = 1 ∧
    ∀ p ∈ parseCSVRows [exRowCondo, exRowTown], p.priceRange ≠ "2.50 MB - 5.00 MB" :=
  of_decide_eq_true (by with_unfolding_all rfl)

/-- C5 (amended).  The two example rows normalize to exactly one project with
`totalUnits = 150`, `soldUnits = 90`, percent-sold string `"60.0"`, two
subunits, and price-range string `"2.50 - 5.00 MB"`. -/
theorem normalizer_example_amended :
    (parseCSVRows [exRowCondo, exRowTown]).map
        (fun p => (p.totalUnits, p.soldUnits, toFixedQ 1 p.percentSold,
          p.subUnits.length, p.priceRange)) =
      [(150, 90, "60.0", 2, "2.50 - 5.00 MB")] :=
  of_decide_eq_true (by with_unfolding_all rfl)

/-! ### Supporting lemmas: percent-sold bounds -/

lemma perSold_bounds {sold total : ℚ} (h0 : 0 ≤ sold) (h1 : sold ≤ total) :
    0 ≤ (if total ≠ 0 then sold / total * 100 else 0) ∧
      (if total ≠ 0 then sold / total * 100 else 0) ≤ 100 := by
  by_cases ht : total = 0
  · simp [ht]
  · rw [if_pos ht]
    have ht' : 0 < total := lt_of_le_of_ne (le_trans h0 h1) (Ne.symm ht)
    constructor
    · exact mul_nonneg (div_nonneg h0 ht'.le) (by norm_num)
    · have hle : sold / total ≤ 1 := (div_le_one ht').mpr h1
      calc sold / total * 100 ≤ 1 * 100 :=
            mul_le_mul_of_nonneg_right hle (by norm_num)
        _ = 100 := by norm_num

lemma mkSubUnit_units (r : Row) :
    (mkSubUnit r).totalUnits = rowTotalUnits r ∧
    (mkSubUnit r).soldUnits = rowSoldUnits r ∧
    (mkSubUnit r).percentSold =
      (if rowTotalUnits r ≠ 0 then rowSoldUnits r / rowTotalUnits r * 100 else 0) :=
  ⟨rfl, rfl, rfl⟩

lemma mkProject_spec {id : String} {rows : List Row} {p : Project}
    (h : mkProject id rows = some p) :
    p.subUnits = rows.map mkSubUnit ∧
    p.totalUnits = ((rows.map mkSubUnit).map SubUnit.totalUnits).sum ∧
    p.soldUnits = ((rows.map mkSubUnit).map SubUnit.soldUnits).sum ∧
    p.percentSold =
      (if p.totalUnits ≠ 0 then p.soldUnits / p.totalUnits * 100 else 0) := by
  cases rows with
  | nil => simp [mkProject] at h
  | cons base rest =>
    by_cases hc :
        ((((getValue base ["Latitude", "lat"]).getD "0") |> parseFloatQ).getD 0 = 0 ∨
          (((getValue base ["Longitude", "lng", "lon"]).getD "0") |> parseFloatQ).getD 0 = 0)
    · simp [mkProject, hc] at h
    · simp only [mkProject, if_neg hc, Option.some.injEq] at h
      rw [← h]
      exact ⟨rfl, rfl, rfl, rfl⟩

lemma addToGroup_rows {groups : List (String × List Row)} {id : String} {row : Row}
    {P : Row → Prop} (hg : ∀ g ∈ groups, ∀ r ∈ g.2, P r) (hrow : P row) :
    ∀ g ∈ addToGroup groups id row, ∀ r ∈ g.2, P r := by
  intro g hmem r hr
  unfold addToGroup at hmem
  split_ifs at hmem with hany
  · obtain ⟨g0, hg0, hgeq⟩ := List.mem_map.mp hmem
    by_cases he : (g0.1 == id) = true
    · rw [if_pos he] at hgeq
      rw [← hgeq] at hr
      rcases List.mem_append.mp hr with hr' | hr'
      · exact hg g0 hg0 r hr'
      · rw [List.mem_singleton.mp hr']
        exact hrow
    · rw [if_neg he] at hgeq
      rw [← hgeq] at hr
      exact hg g0 hg0 r hr
  · rcases List.mem_append.mp hmem with hmem' | hmem'
    · exact hg g hmem' r hr
    · rw [List.mem_singleton.mp hmem'] at hr
      rw [List.mem_singleton.mp hr]
      exact hrow

lemma groupById_aux (P : Row → Prop) :
    ∀ (rows : List Row) (init : List (String × List Row)),
      (∀ g ∈ init, ∀ r ∈ g.2, P r) → (∀ r ∈ rows, P r) →
      ∀ g ∈ rows.foldl
        (fun gs row =>
          match getValue row idKeys with
          | some id => addToGroup gs id row
          | none => gs)
        init, ∀ r ∈ g.2, P r := by
  intro rows
  induction rows with
  | nil => intro init h1 _; exact h1
  | cons row rest ih =>
    intro init h1 h2
    rw [List.foldl_cons]
    refine ih _ ?_ fun r hr => h2 r (List.mem_cons_of_mem _ hr)
    cases hid : getValue row idKeys with
    | none => exact h1
    | some id => exact addToGroup_rows h1 (h2 row (List.mem_cons_self _ _))

lemma groupById_rows_mem {rows : List Row} :
    ∀ g ∈ groupById rows, ∀ r ∈ g.2, r ∈ rows :=
  groupById_aux (· ∈ rows) rows [] (by intro g hg; cases hg) fun r hr => hr

/-- C6 (counterexample).  A row with more sold than total units produces a
project (and subunit) whose percent-sold is 200, outside `[0, 100]` — the
normalizer never clamps. -/
theorem percent_sold_counterexample :
    ¬ (∀ p ∈ parseCSVRows [exRowOversold],
        (0 ≤ p.percentSold ∧ p.percentSold ≤ 100) ∧
        ∀ u ∈ p.subUnits, 0 ≤ u.percentSold ∧ u.percentSold ≤ 100) :=
  of_decide_eq_true (by with_unfolding_all rfl)

/-- C6 (amended).  When every row's parsed sold count lies in `[0, total]`,
every produced project and subunit has percent-sold in `[0, 100]`, equal to
`sold/total*100` when `totalUnits ≠ 0` and to `0` when `totalUnits = 0`. -/
theorem percent_sold_bounds_amended (rows : List Row)
    (hbound : ∀ r ∈ rows, 0 ≤ rowSoldUnits r ∧ rowSoldUnits r ≤ rowTotalUnits r) :
    ∀ p ∈ parseCSVRows rows,
      ((0 ≤ p.percentSold ∧ p.percentSold ≤ 100) ∧
        (p.totalUnits = 0 → p.percentSold = 0) ∧
        (p.totalUnits ≠ 0 → p.percentSold = p.soldUnits / p.totalUnits * 100)) ∧
      ∀ u ∈ p.subUnits,
        ((0 ≤ u.percentSold ∧ u.percentSold ≤ 100) ∧
          (u.totalUnits = 0 → u.percentSold = 0) ∧
          (u.totalUnits ≠ 0 → u.percentSold = u.soldUnits / u.totalUnits * 100)) := by
  intro p hp
  obtain ⟨g, hg, hmk⟩ := List.mem_filterMap.mp hp
  obtain ⟨hsub, htot, hsold, hper⟩ := mkProject_spec hmk
  have hrows : ∀ r ∈ g.2, 0 ≤ rowSoldUnits r ∧ rowSoldUnits r ≤ rowTotalUnits r :=
    fun r hr => hbound r (groupById_rows_mem g hg r hr)
  have hsoldsum : 0 ≤ p.soldUnits := by
    rw [hsold, List.map_map]
    refine sum_nonneg_q ?_
    intro x hx
    obtain ⟨r, hr, rfl⟩ := List.mem_map.mp hx
    exact (hrows r hr).1
  have hsum_le : p.soldUnits ≤ p.totalUnits := by
    rw [hsold, htot, List.map_map, List.map_map]
    refine List.sum_le_sum ?_
    intro r hr
    show (mkSubUnit r).soldUnits ≤ (mkSubUnit r).totalUnits
    rw [(mkSubUnit_units r).1, (mkSubUnit_units r).2.1]
    exact (hrows r hr).2
  constructor
  · refine ⟨?_, ?_, ?_⟩
    · rw [hper]
      exact perSold_bounds hsoldsum hsum_le
    · intro h0
      rw [hper, if_neg (by simp [h0])]
    · intro h0
      rw [hper, if_pos h0]
  · intro u hu
    rw [hsub] at hu
    obtain ⟨r, hr, rfl⟩ := List.mem_map.mp hu
    obtain ⟨ht, hs, hp'⟩ := mkSubUnit_units r
    refine ⟨?_, ?_, ?_⟩
    · rw [hp']
      exact perSold_bounds (hrows r hr).1 (hrows r hr).2
    · intro h0
      rw [ht] at h0
      rw [hp', if_neg (by simp [h0])]
    · intro h0
      rw [ht] at h0
      rw [hp', if_pos h0, hs, ht]

/-! ### Supporting lemmas: the sort comparators -/

lemma strCmp_nonpos {a b : String} : strCmp a b ≤ 0 ↔ a ≤ b := by
  unfold strCmp
  split_ifs with h1 h2
  · exact iff_of_true (by norm_num) (le_of_lt h1)
  · exact iff_of_false (by norm_num) (not_le.mpr h2)
  · exact iff_of_true le_rfl (le_of_not_lt h2)

lemma sortLE_percentSold_iff (a b : Project) :
    sortLE SortKey.percentSold a b ↔ roundTo 1 b.percentSold ≤ roundTo 1 a.percentSold := by
  unfold sortLE sortCmp
  exact sub_nonpos

lemma sortLE_speed6m_iff (a b : Project) :
    sortLE SortKey.speed6m a b ↔ roundTo 2 b.saleSpeed6m ≤ roundTo 2 a.saleSpeed6m := by
  unfold sortLE sortCmp
  exact sub_nonpos

lemma sortLE_speed_iff (a b : Project) :
    sortLE SortKey.speed a b ↔ roundTo 2 b.saleSpeed ≤ roundTo 2 a.saleSpeed := by
  unfold sortLE sortCmp
  exact sub_nonpos

lemma sortLE_unitLeft_iff (a b : Project) :
    sortLE SortKey.unitLeft a b ↔
      b.totalUnits - b.soldUnits ≤ a.totalUnits - a.soldUnits := by
  unfold sortLE sortCmp
  exact sub_nonpos

lemma sortLE_distance_iff (a b : Project) :
    sortLE SortKey.distance a b ↔ a.distance.getD 0 ≤ b.distance.getD 0 := by
  unfold sortLE sortCmp
  exact sub_nonpos

lemma sortLE_launchDate_iff (a b : Project) :
    sortLE SortKey.launchDate a b ↔ getLaunch b ≤ getLaunch a := by
  unfold sortLE sortCmp
  exact strCmp_nonpos

lemma minPositivePrice_cases (p : Project) :
    minPositivePrice p = 0 ∨ 0 < minPositivePrice p := by
  unfold minPositivePrice
  dsimp only
  split_ifs with h
  · right
    refine validPrices_pos (qMin_mem ?_)
    intro hh
    rw [hh] at h
    simp at h
  · left
    rfl

lemma sortLE_priceAsc_iff (a b : Project) :
    sortLE SortKey.priceAsc a b ↔
      (if minPositivePrice a = 0 then (⊤ : WithTop ℚ) else (minPositivePrice a : WithTop ℚ)) ≤
        (if minPositivePrice b = 0 then (⊤ : WithTop ℚ) else (minPositivePrice b : WithTop ℚ)) := by
  unfold sortLE sortCmp
  dsimp only
  rcases minPositivePrice_cases a with ha | ha <;> rcases minPositivePrice_cases b with hb | hb
  · rw [if_pos ha, if_pos hb, if_neg (by rw [hb]; simp), if_neg (by rw [ha]; simp)]
    rw [ha, hb]
    exact iff_of_true (by norm_num) le_rfl
  · rw [if_pos ha, if_neg hb.ne', if_pos ⟨ha, hb⟩]
    exact iff_of_false (by norm_num)
      (fun hh => WithTop.coe_ne_top (top_le_iff.mp hh))
  · rw [if_neg ha.ne', if_pos hb, if_neg (by rw [hb]; simp [ha.ne']),
      if_pos ⟨hb, ha⟩]
    exact iff_of_true (by norm_num) le_top
  · rw [if_neg ha.ne', if_neg hb.ne', if_neg (by simp [ha.ne']),
      if_neg (by simp [hb.ne'])]
    exact Iff.trans sub_nonpos WithTop.coe_le_coe.symm

lemma sortLE_priceDesc_iff (a b : Project) :
    sortLE SortKey.priceDesc a b ↔
      (if minPositivePrice a = 0 then (⊤ : WithTop ℚ)
        else ((-minPositivePrice a : ℚ) : WithTop ℚ)) ≤
        (if minPositivePrice b = 0 then (⊤ : WithTop ℚ)
          else ((-minPositivePrice b : ℚ) : WithTop ℚ)) := by
  unfold sortLE sortCmp
  dsimp only
  rcases minPositivePrice_cases a with ha | ha <;> rcases minPositivePrice_cases b with hb | hb
  · rw [if_pos ha, if_pos hb, if_neg (by rw [hb]; simp), if_neg (by rw [ha]; simp)]
    rw [ha, hb]
    exact iff_of_true (by norm_num) le_rfl
  · rw [if_pos ha, if_neg hb.ne', if_pos ⟨ha, hb⟩]
    exact iff_of_false (by norm_num)
      (fun hh => WithTop.coe_ne_top (top_le_iff.mp hh))
  · rw [if_neg ha.ne', if_pos hb, if_neg (by rw [hb]; simp [ha.ne']),
      if_pos ⟨hb, ha⟩]
    exact iff_of_true (by norm_num) le_top
  · rw [if_neg ha.ne', if_neg hb.ne', if_neg (by simp [ha.ne']),
      if_neg (by simp [hb.ne'])]
    constructor
    · intro hh
      rw [WithTop.coe_le_coe]
      linarith [sub_nonpos.mp hh]
    · intro hh
      rw [WithTop.coe_le_coe] at hh
      refine sub_nonpos.mpr ?_
      linarith

/-- C7.  The sort stage's output is ordered: every consecutive pair satisfies
the selected comparator, and for the price keys every project with no
positive-price subunit comes after every project with one, regardless of
direction. -/
theorem sort_stage_consecutive_ordered (dist : ℚ → ℚ → ℚ → ℚ → ℚ) (s : SearchState)
    (ps : List Project) :
    List.Chain' (sortLE s.sortBy) (filteredProjects dist s ps) ∧
    ((s.sortBy = SortKey.priceAsc ∨ s.sortBy = SortKey.priceDesc) →
      List.Pairwise (fun a b => minPositivePrice a = 0 → minPositivePrice b = 0)
        (filteredProjects dist s ps)) := by
  have hsorted : List.Sorted (sortLE s.sortBy) (filteredProjects dist s ps) := by
    unfold filteredProjects
    cases s.sortBy with
    | distance =>
      haveI : IsTotal Project (sortLE SortKey.distance) :=
        ⟨fun a b => by rw [sortLE_distance_iff, sortLE_distance_iff]; exact le_total _ _⟩
      haveI : IsTrans Project (sortLE SortKey.distance) :=
        ⟨fun a b c hab hbc => by
          rw [sortLE_distance_iff] at *
          exact le_trans hab hbc⟩
      exact List.sorted_insertionSort _ _
    | percentSold =>
      haveI : IsTotal Project (sortLE SortKey.percentSold) :=
        ⟨fun a b => by rw [sortLE_percentSold_iff, sortLE_percentSold_iff]; exact (le_total _ _).symm⟩
      haveI : IsTrans Project (sortLE SortKey.percentSold) :=
        ⟨fun a b c hab hbc => by
          rw [sortLE_percentSold_iff] at *
          exact le_trans hbc hab⟩
      exact List.sorted_insertionSort _ _
    | speed6m =>
      haveI : IsTotal Project (sortLE SortKey.speed6m) :=
        ⟨fun a b => by rw [sortLE_speed6m_iff, sortLE_speed6m_iff]; exact (le_total _ _).symm⟩
      haveI : IsTrans Project (sortLE SortKey.speed6m) :=
        ⟨fun a b c hab hbc => by
          rw [sortLE_speed6m_iff] at *
          exact le_trans hbc hab⟩
      exact List.sorted_insertionSort _ _
    | speed =>
      haveI : IsTotal Project (sortLE SortKey.speed) :=
        ⟨fun a b => by rw [sortLE_speed_iff, sortLE_speed_iff]; exact (le_total _ _).symm⟩
      haveI : IsTrans Project (sortLE SortKey.speed) :=
        ⟨fun a b c hab hbc => by
          rw [sortLE_speed_iff] at *
          exact le_trans hbc hab⟩
      exact List.sorted_insertionSort _ _
    | unitLeft =>
      haveI : IsTotal Project (sortLE SortKey.unitLeft) :=
        ⟨fun a b => by rw [sortLE_unitLeft_iff, sortLE_unitLeft_iff]; exact (le_total _ _).symm⟩
      haveI : IsTrans Project (sortLE SortKey.unitLeft) :=
        ⟨fun a b c hab hbc => by
          rw [sortLE_unitLeft_iff] at *
          exact le_trans hbc hab⟩
      exact List.sorted_insertionSort _ _
    | launchDate =>
      haveI : IsTotal Project (sortLE SortKey.launchDate) :=
        ⟨fun a b => by rw [sortLE_launchDate_iff, sortLE_launchDate_iff]; exact (le_total _ _).symm⟩
      haveI : IsTrans Project (sortLE SortKey.launchDate) :=
        ⟨fun a b c hab hbc => by
          rw [sortLE_launchDate_iff] at *
          exact le_trans hbc hab⟩
      exact List.sorted_insertionSort _ _
    | priceAsc =>
      haveI : IsTotal Project (sortLE SortKey.priceAsc) :=
        ⟨fun a b => by rw [sortLE_priceAsc_iff, sortLE_priceAsc_iff]; exact le_total _ _⟩
      haveI : IsTrans Project (sortLE SortKey.priceAsc) :=
        ⟨fun a b c hab hbc => by
          rw [sortLE_priceAsc_iff] at *
          exact le_trans hab hbc⟩
      exact List.sorted_insertionSort _ _
    | priceDesc =>
      haveI : IsTotal Project (sortLE SortKey.priceDesc) :=
        ⟨fun a b => by rw [sortLE_priceDesc_iff, sortLE_priceDesc_iff]; exact le_total _ _⟩
      haveI : IsTrans Project (sortLE SortKey.priceDesc) :=
        ⟨fun a b c hab hbc => by
          rw [sortLE_priceDesc_iff] at *
          exact le_trans hab hbc⟩
      exact List.sorted_insertionSort _ _
  refine ⟨List.Pairwise.chain' hsorted, ?_⟩
  rintro (hk | hk) <;> rw [hk] at hsorted <;>
    refine hsorted.imp ?_ <;> intro a b hab hza
  · rw [sortLE_priceAsc_iff, if_pos hza] at hab
    by_contra hzb
    rw [if_neg hzb] at hab
    exact WithTop.coe_ne_top (top_le_iff.mp hab)
  · rw [sortLE_priceDesc_iff, if_pos hza] at hab
    by_contra hzb
    rw [if_neg hzb] at hab
    exact WithTop.coe_ne_top (top_le_iff.mp hab)

/-! ### Witnesses: the hypothesis-bearing theorems instantiated on sample data -/

/-- Witness for C1, instantiated in location mode on one project. -/
theorem location_mode_radius_bound_witness :
    (setDistance exDist exState exProjMB1).distance =
      some (exDist exState.lat exState.lng (setDistance exDist exState exProjMB1).lat
        (setDistance exDist exState exProjMB1).lng) ∧
    (setDistance exDist exState exProjMB1).distance.getD 0 ≤ exState.radius :=
  (location_mode_radius_bound_and_code_mode_ignores_radius exDist exState [exProjMB1]).1 rfl
    (setDistance exDist exState exProjMB1) (of_decide_eq_true (by with_unfolding_all rfl))

/-- Witness for C3: a project with no positive-price subunit is excluded. -/
theorem price_segment_filter_witness : segmentPass "< 0.5" exProjEmpty = false :=
  (price_segment_filter_overlap "< 0.5" exProjEmpty).2.2.1 rfl

/-- Witness for C4: a non-zero canonical speed is never backfilled. -/
theorem speed6m_backfill_witness : backfillSpeed6m 1 [("H1.67", 2)] = 1 :=
  (speed6m_backfill_latest_history 1 [("H1.67", 2)]).1 (by norm_num)

/-- Witness for C6, instantiated on a row with 20 of 80 units sold. -/
theorem percent_sold_bounds_witness :
    (0 ≤ ((parseCSVRows [exRowBounded]).headD exProjEmpty).percentSold ∧
      ((parseCSVRows [exRowBounded]).headD exProjEmpty).percentSold ≤ 100) ∧
    (((parseCSVRows [exRowBounded]).headD exProjEmpty).totalUnits = 0 →
      ((parseCSVRows [exRowBounded]).headD exProjEmpty).percentSold = 0) ∧
    (((parseCSVRows [exRowBounded]).headD exProjEmpty).totalUnits ≠ 0 →
      ((parseCSVRows [exRowBounded]).headD exProjEmpty).percentSold =
        ((parseCSVRows [exRowBounded]).headD exProjEmpty).soldUnits /
          ((parseCSVRows [exRowBounded]).headD exProjEmpty).totalUnits * 100) :=
  (percent_sold_bounds_amended [exRowBounded]
    (of_decide_eq_true (by with_unfolding_all rfl))
    ((parseCSVRows [exRowBounded]).headD exProjEmpty)
    (of_decide_eq_true (by with_unfolding_all rfl))).1

/-- Witness for C7: under the ascending price key, the priceless project
sorts after the priced one. -/
theorem sort_stage_witness :
    List.Pairwise (fun a b => minPositivePrice a = 0 → minPositivePrice b = 0)
      (filteredProjects exDist exStateAsc [exProjMB1, exProjEmpty]) :=
  (sort_stage_consecutive_ordered exDist exStateAsc [exProjMB1, exProjEmpty]).2 (Or.inl rfl)

/-- Witness for C10: a project with average price exactly 1 million is
counted, and in the bucket chosen by `segmentIndex`. -/
theorem histogram_boundary_witness :
    priceCounts [] [exProjMB1] =
      bumpAt (List.replicate 8 0)
        (segmentIndex (priceMBOf (getProjectWeightedPriceStats [] exProjMB1).avgPrice)) :=
  (histogram_boundary_bucketing [] exProjMB1
    (of_decide_eq_true (by with_unfolding_all rfl))).1

end RERD
